import Mathlib

/-!
Verification development for the financial knowledge-graph builder.

The definitions below are a shallow embedding of the core code of the repository:

* `src/src/d_entity_resolution/entity_resolution.py` — `EntityResolutionService`
  (`get_or_create_entity_id`, `infer_type_llm`, `_heuristic_type`,
  `clean_extraction_row`, `run_resolution`);
* `src/src/e_neo4j_loading/neo4j_loading.py` — `Neo4jGraphLoader`
  (`load_nodes_csv`, `load_relationships_csv`, `run_loading`), with the store
  effect of the two Cypher statements modelled explicitly;
* `src/app.py` — the `/api/pipeline/start` handler (`start_pipeline`) over the
  shared `pipeline_status` record.

Python strings are modelled by Lean `String`; the handful of `str` methods the
code uses (`strip`, `lower`, `upper`, `replace(" ", "_")`, substring `in`) are
re-implemented structurally below so that they evaluate by kernel reduction on
the ASCII inputs that occur in this code base.
-/

/-! ## Models of the Python string primitives used by the source -/

/-- The characters removed by Python `str.strip()` with no argument
(ASCII whitespace). -/
def pySpace (c : Char) : Bool :=
  c = ' ' || c = '\t' || c = '\n' || c = '\r' || c = '\x0b' || c = '\x0c'

/-- Model of Python `s.strip()`: drop leading and trailing whitespace. -/
def pyStrip (s : String) : String :=
  ⟨((s.data.dropWhile pySpace).reverse.dropWhile pySpace).reverse⟩

/-- ASCII lower-casing of one character, as Python `str.lower` acts on the
ASCII inputs relevant here. -/
def asciiLower (c : Char) : Char :=
  if 65 ≤ c.toNat ∧ c.toNat ≤ 90 then Char.ofNat (c.toNat + 32) else c

/-- ASCII upper-casing of one character, as Python `str.upper` acts on the
ASCII inputs relevant here. -/
def asciiUpper (c : Char) : Char :=
  if 97 ≤ c.toNat ∧ c.toNat ≤ 122 then Char.ofNat (c.toNat - 32) else c

/-- Model of Python `s.lower()`. -/
def pyLower (s : String) : String := ⟨s.data.map asciiLower⟩

/-- Model of Python `s.upper()`. -/
def pyUpper (s : String) : String := ⟨s.data.map asciiUpper⟩

/-- Model of Python `s.replace(" ", "_")` (single-character pattern, so a
character map is exact). -/
def pyReplaceSpace (s : String) : String :=
  ⟨s.data.map (fun c => if c = ' ' then '_' else c)⟩

/-- Whether the first list is an initial segment of the second. -/
def charsStartWith : List Char → List Char → Bool
  | [], _ => true
  | _ :: _, [] => false
  | a :: as, b :: bs => a = b && charsStartWith as bs

/-- Whether the first list occurs contiguously inside the second. -/
def charsInside : List Char → List Char → Bool
  | needle, [] => needle.isEmpty
  | needle, c :: cs => charsStartWith needle (c :: cs) || charsInside needle cs

/-- Model of the Python substring test `needle in hay`. -/
def pyContains (hay needle : String) : Bool :=
  charsInside needle.data hay.data

/-! ## Model of `uuid.uuid5(uuid.NAMESPACE_DNS, key)`

`get_or_create_entity_id` calls the standard library function `uuid.uuid5` with the
fixed DNS namespace: a deterministic, namespaced hash of the key.  The claims
about the repository depend only on this being a fixed pure function of the
key (never a fresh random value), so the digest is modelled by a concrete
64-bit FNV-1a fold rendered in hex; the particular digest bits are irrelevant
to every theorem below. -/

/-- 64-bit FNV-1a over a character list (code points, which coincide with the
UTF-8 bytes on the ASCII inputs relevant here). -/
def fnv1a : List Char → Nat → Nat
  | [], h => h
  | c :: cs, h => fnv1a cs (((h ^^^ c.toNat) * 1099511628211) % 18446744073709551616)

/-- One lower-case hexadecimal digit. -/
def hexDigit (n : Nat) : Char :=
  if n < 10 then Char.ofNat (48 + n) else Char.ofNat (87 + n % 16)

/-- Fixed-width big-endian hex rendering. -/
def toHexDigits : Nat → Nat → List Char
  | 0, _ => []
  | d + 1, n => toHexDigits d (n / 16) ++ [hexDigit (n % 16)]

/-- Model of `str(uuid.uuid5(uuid.NAMESPACE_DNS, key))`: a fixed deterministic
hash of `key` rendered as a string. -/
def uuid5_dns (key : String) : String :=
  ⟨toHexDigits 16 (fnv1a key.data 14695981039346656037)⟩

/-! ## Stage D: `EntityResolutionService` (entity_resolution.py)

The only service state relevant to the claims is `self.entity_cache`, a
dict from normalized name to id string, modelled as an association list. -/

/-- The `entity_cache` dict of `EntityResolutionService`. -/
abbrev EntityCache := List (String × String)

/-- Association-list lookup, modelling Python dict lookup `key in cache` /
`cache[key]`. -/
def cacheFind : List (String × String) → String → Option String
  | [], _ => none
  | (k, v) :: rest, key => if k = key then some v else cacheFind rest key

/-- The key computed by `get_or_create_entity_id`: `name.strip().lower()`. -/
def normKey (name : String) : String := pyLower (pyStrip name)

/-- Embedding of `EntityResolutionService.get_or_create_entity_id`
(entity_resolution.py lines 46-52): normalize the name, return `None` for an
empty key, otherwise return the cached id or cache and return
`uuid5(NAMESPACE_DNS, key)`.  Returns the result together with the updated
cache. -/
def get_or_create_entity_id (cache : EntityCache) (name : String) :
    Option String × EntityCache :=
  let key := normKey name
  if key = "" then (none, cache)
  else
    match cacheFind cache key with
    | some v => (some v, cache)
    | none => (some (uuid5_dns key), cache ++ [(key, uuid5_dns key)])

/-- The pure function of the name that `get_or_create_entity_id` computes
whenever its cache is consistent (proved below): `None` on an empty normalized
key, otherwise the namespaced hash of the normalized key. -/
def entityIdOf (name : String) : Option String :=
  if normKey name = "" then none else some (uuid5_dns (normKey name))

/-- Cache consistency invariant: every cached value is the namespaced hash of
its key.  It holds for the empty cache of a fresh service instance and is
preserved by `get_or_create_entity_id`. -/
def CacheConsistent (cache : EntityCache) : Prop :=
  ∀ p ∈ cache, p.2 = uuid5_dns p.1

/-- The five labels accepted from the LLM classifier
(`self.VALID_LABELS` in `EntityResolutionService.__init__`). -/
def VALID_LABELS : List String := ["Person", "Company", "Product", "Event", "Entity"]

/-- Company lexical cues of `_heuristic_type`. -/
def companyCues : List String := ["inc", "corp", "company", "bank", "fund"]

/-- Person lexical cues of `_heuristic_type`. -/
def personCues : List String := ["mr", "dr", "ceo", "president"]

/-- Embedding of `EntityResolutionService._heuristic_type`
(entity_resolution.py lines 36-44): the local lexical fallback classifier. -/
def heuristic_type (name : String) : String :=
  if name = "" then "Entity"
  else
    let name_lower := pyLower name
    if companyCues.any (fun w => pyContains name_lower w) then "Company"
    else if personCues.any (fun w => pyContains name_lower w) then "Person"
    else "Entity"

/-- Embedding of `EntityResolutionService.infer_type_llm`
(entity_resolution.py lines 18-34).  The external call to the chat-completion
collaborator is modelled by its outcome `llmReply`: `none` when the call (or
response access) raises — the bare `except` branch — and `some content` when
it returns `content` as the message text.  On a reply, the code strips the
text and returns it only if it is one of the five valid labels, returning the
literal `"Entity"` otherwise; on an exception it falls back to
`_heuristic_type`. -/
def infer_type_llm (llmReply : Option String) (name : String) : String :=
  match llmReply with
  | some content =>
    let label := pyStrip content
    if label ∈ VALID_LABELS then label else "Entity"
  | none => heuristic_type name

/-- One raw (subject, relation, object) triple of an extraction row.  A
missing component (`None` from `row.get`) is modelled as `""`: the Python
truthiness test `not all([subj, obj, rel])` treats `None` and `""` alike, and
a triple with a falsy component is skipped before any other use. -/
structure RelTriple where
  subject : String
  relation : String
  object : String
deriving DecidableEq

/-- One row of the extraction-stage dataframe consumed by
`clean_extraction_row`: raw entity mentions, raw triples, and provenance. -/
structure ExtractionRow where
  entities : List String
  relations : List RelTriple
  source : String
  article_id : String
  published_at : String
deriving DecidableEq

/-- A canonical entity record as built by `clean_extraction_row`
(the dict appended to `entity_objs`). -/
structure EntityObj where
  id : Option String
  name : String
  label : String
  source : String
  article_id : String
  published_at : String
deriving DecidableEq

/-- A canonical relation record as built by `clean_extraction_row`
(the dict appended to `relation_objs`).  `confidence` is the fixed literal
`0.9`; it is represented as a rational since the code only ever stores and
compares this literal. -/
structure RelationObj where
  start_id : Option String
  end_id : Option String
  type : String
  confidence : ℚ
  article_id : String
  source : String
  published_at : String
deriving DecidableEq

/-- The canonical relation type: `rel.upper().replace(" ", "_")`. -/
def canonRelType (rel : String) : String := pyReplaceSpace (pyUpper rel)

/-- The entity loop of `clean_extraction_row` (entity_resolution.py lines
58-68): strip each mention, skip empty ones, resolve an id through the cache,
classify, and build the record.  `classify` stands for the call
`self.infer_type_llm(e_str)` with its external reply already fixed. -/
def cleanEntities (classify : String → String) (row : ExtractionRow) :
    EntityCache → List String → List EntityObj × EntityCache
  | cache, [] => ([], cache)
  | cache, e :: es =>
    let e_str := pyStrip e
    if e_str = "" then cleanEntities classify row cache es
    else
      let r1 := get_or_create_entity_id cache e_str
      let e_type := classify e_str
      let rest := cleanEntities classify row r1.2 es
      ({ id := r1.1, name := e_str, label := e_type, source := row.source,
         article_id := row.article_id, published_at := row.published_at } :: rest.1,
       rest.2)

/-- The relation loop of `clean_extraction_row` (entity_resolution.py lines
70-81): skip a triple when any of subject, object, relation is falsy,
otherwise resolve both endpoints and build the record with the canonical type
and fixed confidence `0.9`. -/
def cleanRelations (row : ExtractionRow) :
    EntityCache → List RelTriple → List RelationObj × EntityCache
  | cache, [] => ([], cache)
  | cache, t :: ts =>
    if t.subject = "" ∨ t.object = "" ∨ t.relation = "" then
      cleanRelations row cache ts
    else
      let r1 := get_or_create_entity_id cache t.subject
      let r2 := get_or_create_entity_id r1.2 t.object
      let rest := cleanRelations row r2.2 ts
      ({ start_id := r1.1, end_id := r2.1, type := canonRelType t.relation,
         confidence := 0.9, article_id := row.article_id, source := row.source,
         published_at := row.published_at } :: rest.1,
       rest.2)

/-- Embedding of `EntityResolutionService.clean_extraction_row`
(entity_resolution.py lines 54-83), threading the entity cache through both
loops. -/
def clean_extraction_row (classify : String → String) (cache : EntityCache)
    (row : ExtractionRow) : (List EntityObj × List RelationObj) × EntityCache :=
  let es := cleanEntities classify row cache row.entities
  let rs := cleanRelations row es.2 row.relations
  ((es.1, rs.1), rs.2)

/-- The accumulation loop of `run_resolution` (entity_resolution.py lines
92-95): clean every row and concatenate `all_entities` / `all_relations`. -/
def resolveRows (classify : String → String) :
    EntityCache → List ExtractionRow → (List EntityObj × List RelationObj) × EntityCache
  | cache, [] => (([], []), cache)
  | cache, r :: rs =>
    let c := clean_extraction_row classify cache r
    let rest := resolveRows classify c.2 rs
    ((c.1.1 ++ rest.1.1, c.1.2 ++ rest.1.2), rest.2)

/-- Keep the first element for each key, drop later ones: the semantics of
pandas `DataFrame.drop_duplicates(subset=...)` with the default
`keep="first"`.  `seen` accumulates the keys already kept. -/
def dedupFirstAux {α κ : Type} [DecidableEq κ] (key : α → κ) (seen : List κ) :
    List α → List α
  | [] => []
  | x :: xs =>
    if key x ∈ seen then dedupFirstAux key seen xs
    else x :: dedupFirstAux key (key x :: seen) xs

/-- `drop_duplicates(subset=...)`, starting from no keys seen. -/
def dedupFirst {α κ : Type} [DecidableEq κ] (key : α → κ) (l : List α) : List α :=
  dedupFirstAux key [] l

/-- The dedup key of the nodes dataframe: `subset=["id"]`. -/
def nodeKey (e : EntityObj) : Option String := e.id

/-- The dedup key of the relations dataframe:
`subset=["start_id", "end_id", "type"]`. -/
def relKey (r : RelationObj) : Option String × Option String × String :=
  (r.start_id, r.end_id, r.type)

/-- Embedding of `EntityResolutionService.run_resolution`
(entity_resolution.py lines 85-102): clean all rows, then deduplicate the
node records on `id` and the relation records on `(start_id, end_id, type)`,
keeping first occurrences. -/
def run_resolution (classify : String → String) (cache : EntityCache)
    (rows : List ExtractionRow) : List EntityObj × List RelationObj :=
  let raw := resolveRows classify cache rows
  (dedupFirst nodeKey raw.1.1, dedupFirst relKey raw.1.2)

/-- Spec-side normalizer for one triple, stated from §4.2 of the spec
(`normalize(subject, relationPhrase, object) -> CanonicalRelation | skip`):
skip on an empty component, otherwise resolve both endpoints with the pure
resolver, canonicalize the relation phrase, and attach confidence `0.9`.  The
relation loop of `clean_extraction_row` is proved below to compute exactly
this on a consistent cache. -/
def normalizeTriple (row : ExtractionRow) (t : RelTriple) : Option RelationObj :=
  if t.subject = "" ∨ t.object = "" ∨ t.relation = "" then none
  else
    some { start_id := entityIdOf t.subject, end_id := entityIdOf t.object,
           type := canonRelType t.relation, confidence := 0.9,
           article_id := row.article_id, source := row.source,
           published_at := row.published_at }


/-- Classification along the heuristic path ("type via heuristic"): the
external classifier call fails, so `infer_type_llm` takes its `except`
branch and answers with `_heuristic_type`. -/
def heuristicClassify (name : String) : String := infer_type_llm none name

/-- The worked example from §8 of the spec: an extraction row carrying the triple
`("Apple", "HAS CEO", "Tim Cook")` and its two entity mentions. -/
def appleRow : ExtractionRow :=
  { entities := ["Apple", "Tim Cook"],
    relations := [{ subject := "Apple", relation := "HAS CEO", object := "Tim Cook" }],
    source := "newsapi", article_id := "a1", published_at := "2024-01-01" }

/-! ## Stage E: `Neo4jGraphLoader` (neo4j_loading.py)

The persistent property-graph store is modelled explicitly: a list of nodes
(each with a property map flattened into named fields plus a list of labels)
and a list of relationships.  The two Cypher statements of `load_nodes_csv`
and `load_relationships_csv` are embedded as per-CSV-row store transformers.

Relationships are identified by their endpoint `id` properties.  In every
store the loader itself produces, node `id`s are unique (the node statement
merges on `id`), so this coincides with identifying them by endpoint node. -/

/-- One row of the nodes CSV written by `run_loading`
(columns of the nodes dataframe). -/
structure NodeRow where
  id : String
  name : String
  label : String
  source : String
  article_id : String
  published_at : String
deriving DecidableEq

/-- One row of the relations CSV.  `confidence` is optional, mirroring the
`coalesce(row.confidence, 1.0)` in the Cypher. -/
structure RelRow where
  start_id : String
  end_id : String
  type : String
  confidence : Option ℚ
  source : String
  article_id : String
  published_at : String
deriving DecidableEq

/-- A node of the store: its scalar properties and its labels. -/
structure StoreNode where
  id : String
  name : String
  labelProp : String
  source : String
  article_id : String
  published_at : String
  labels : List String
deriving DecidableEq

/-- A relationship of the store, identified by endpoint ids, type, and the
identifying properties passed to `apoc.merge.relationship`. -/
structure StoreRel where
  start_id : String
  end_id : String
  type : String
  confidence : ℚ
  source : String
  article_id : String
  published_at : String
deriving DecidableEq

/-- The property-graph store. -/
structure Store where
  nodes : List StoreNode
  edges : List StoreRel
deriving DecidableEq

/-- The match condition of `MERGE (n:Entity {id: row.id})`: a node carrying
the `Entity` label with the given `id`. -/
def nodeMatch (i : String) (n : StoreNode) : Prop :=
  "Entity" ∈ n.labels ∧ n.id = i

instance nodeMatchDecidable (i : String) (n : StoreNode) : Decidable (nodeMatch i n) :=
  inferInstanceAs (Decidable ("Entity" ∈ n.labels ∧ n.id = i))

/-- `apoc.create.addLabels`: add a label if not already present
(labels form a set). -/
def addLabel (ls : List String) (l : String) : List String :=
  if l ∈ ls then ls else ls ++ [l]

/-- The `SET` clause plus `apoc.create.addLabels(n, [row.label])` of the node
statement: overwrite the scalar properties with the row values and attach the
row label as an extra structural label.  The `id` is untouched (the `MERGE`
matched on it). -/
def setNodeProps (n : StoreNode) (r : NodeRow) : StoreNode :=
  { n with name := r.name, labelProp := r.label, source := r.source,
           article_id := r.article_id, published_at := r.published_at,
           labels := addLabel n.labels r.label }

/-- The node created by `MERGE (n:Entity {id: row.id})` followed by `SET` and
`addLabels` when no node matched. -/
def newStoreNode (r : NodeRow) : StoreNode :=
  { id := r.id, name := r.name, labelProp := r.label, source := r.source,
    article_id := r.article_id, published_at := r.published_at,
    labels := addLabel ["Entity"] r.label }

/-- Effect on the store of one CSV row of the node-loading Cypher
(neo4j_loading.py lines 25-36): `MERGE` matches any `Entity`-labelled node
with the row id and updates it, or creates one. -/
def mergeNodeRow (ns : List StoreNode) (r : NodeRow) : List StoreNode :=
  if ∃ n ∈ ns, nodeMatch r.id n then
    ns.map (fun n => if nodeMatch r.id n then setNodeProps n r else n)
  else ns ++ [newStoreNode r]

/-- Embedding of `Neo4jGraphLoader.load_nodes_csv` (neo4j_loading.py lines
22-45): fold the node statement over the CSV rows.  The returned flag is the
`return True` of the non-exception path; the `except` branch returns `False`
only when the external driver session raises, which is outside the store
semantics embedded here. -/
def load_nodes_csv (s : Store) (rows : List NodeRow) : Store × Bool :=
  ({ s with nodes := rows.foldl mergeNodeRow s.nodes }, true)

/-- The relationship record merged by `apoc.merge.relationship(source,
row.type, {confidence, source, article_id, published_at}, {}, target)`.  The
`toFloat(coalesce(row.confidence, 1.0))` becomes `getD 1.0`. -/
def relOfRow (r : RelRow) : StoreRel :=
  { start_id := r.start_id, end_id := r.end_id, type := r.type,
    confidence := r.confidence.getD 1.0, source := r.source,
    article_id := r.article_id, published_at := r.published_at }

/-- Effect on the store of one CSV row of the relationship-loading Cypher
(neo4j_loading.py lines 50-67).  The two `MATCH` clauses behave as filters: a
row whose `start_id` or `end_id` matches no node in the store produces no
binding, so the `apoc.merge.relationship` call never runs for it and the row
contributes nothing — no error is raised.  When both endpoints match, the
merge adds the relationship unless an identical one already exists. -/
def mergeRelRow (s : Store) (r : RelRow) : Store :=
  if (∃ n ∈ s.nodes, n.id = r.start_id) ∧ (∃ n ∈ s.nodes, n.id = r.end_id) then
    if relOfRow r ∈ s.edges then s
    else { s with edges := s.edges ++ [relOfRow r] }
  else s

/-- Embedding of `Neo4jGraphLoader.load_relationships_csv` (neo4j_loading.py
lines 47-76): fold the relationship statement over the CSV rows.  As with
node loading, the `False` branch fires only on an external driver exception,
outside the embedded store semantics; the Cypher itself reports success
regardless of how many rows were filtered out by the endpoint `MATCH`es. -/
def load_relationships_csv (s : Store) (rows : List RelRow) : Store × Bool :=
  (rows.foldl mergeRelRow s, true)

/-- A `GraphBatch`: the node and edge CSVs staged by `run_loading`. -/
structure GraphBatch where
  nodes : List NodeRow
  edges : List RelRow
deriving DecidableEq

/-- Embedding of the store effect and result flag of
`Neo4jGraphLoader.run_loading` (neo4j_loading.py lines 89-112).  The two
`copy_to_docker` calls are external; their outcomes are the `copyNodesOk` /
`copyRelsOk` parameters (`None` from a failed `docker cp` is `false`).  When
both copies succeed, nodes are loaded and then — only if node loading
returned `True` — relationships; any other path returns the input store
untouched with `False`. -/
def run_loading (s : Store) (b : GraphBatch) (copyNodesOk copyRelsOk : Bool) :
    Store × Bool :=
  if copyNodesOk && copyRelsOk then
    let r1 := load_nodes_csv s b.nodes
    if r1.2 then
      let r2 := load_relationships_csv r1.1 b.edges
      (r2.1, r2.2)
    else (r1.1, false)
  else (s, false)

/-- The store reached by the successful path of `run_loading`: nodes loaded
first, then relationships on the resulting store.  `run_loading s b true
true` computes `(loadBatchStore s b, true)` definitionally. -/
def loadBatchStore (s : Store) (b : GraphBatch) : Store :=
  List.foldl mergeRelRow
    { nodes := List.foldl mergeNodeRow s.nodes b.nodes, edges := s.edges } b.edges

/-- The observable steps of one `run_loading` call, in program order. -/
inductive LoadEvent where
  | saveNodesCsv
  | saveRelsCsv
  | copyNodesToDocker
  | copyRelsToDocker
  | loadNodes
  | loadRels
deriving DecidableEq

/-- Event-trace view of `Neo4jGraphLoader.run_loading` (neo4j_loading.py
lines 89-112): both CSVs are written, both are copied to the container, and
only then — when both copies succeeded — `load_nodes_csv` runs, followed by
`load_relationships_csv` only when node loading returned `True`.  The four
`Bool` parameters are the outcomes of the two copies and the two load calls;
the second component is the value `run_loading` returns. -/
def run_loading_trace (copyNodesOk copyRelsOk nodesOk relsOk : Bool) :
    List LoadEvent × Bool :=
  let staged := [LoadEvent.saveNodesCsv, LoadEvent.saveRelsCsv,
                 LoadEvent.copyNodesToDocker, LoadEvent.copyRelsToDocker]
  if copyNodesOk && copyRelsOk then
    if nodesOk then (staged ++ [LoadEvent.loadNodes, LoadEvent.loadRels], relsOk)
    else (staged ++ [LoadEvent.loadNodes], false)
  else (staged, false)

/-! ## Pipeline control: `/api/pipeline/start` (app.py) -/

/-- The `stats` sub-dict of the shared `pipeline_status` record. -/
structure PipelineStats where
  articles_collected : Nat
  chunks_created : Nat
  entities_extracted : Nat
  nodes_created : Nat
  relationships_created : Nat
deriving DecidableEq

/-- The shared `pipeline_status` record of app.py. -/
structure PipelineStatus where
  running : Bool
  current_stage : String
  stage_name : String
  progress : Nat
  message : String
  error : String
  completed : Bool
  stats : PipelineStats
deriving DecidableEq

/-- The HTTP response of the start handler: either the 400 rejection or the
success payload (the background thread is spawned in the latter case). -/
inductive StartResponse where
  | rejected (error : String) (httpCode : Nat)
  | started (message : String)
deriving DecidableEq

/-- The status record installed by a successful start (the literal reset
dict in `start_pipeline`). -/
def initialRunStatus : PipelineStatus :=
  { running := true, current_stage := "Starting", stage_name := "Initializing",
    progress := 0, message := "Starting pipeline...", error := "",
    completed := false,
    stats := { articles_collected := 0, chunks_created := 0,
               entities_extracted := 0, nodes_created := 0,
               relationships_created := 0 } }

/-- Embedding of the `/api/pipeline/start` handler `start_pipeline`
(app.py lines 277-315): when `pipeline_status["running"]` is true, return the
400 "already running" error without touching the record; otherwise install
the reset record and report success.  `sample_size` and `run_ingestion` are
the request parameters, passed only to the spawned worker thread. -/
def start_pipeline (st : PipelineStatus) (sample_size : Nat)
    (run_ingestion : Bool) : PipelineStatus × StartResponse :=
  if st.running then (st, StartResponse.rejected "Pipeline is already running" 400)
  else (initialRunStatus, StartResponse.started "Pipeline started successfully")

/-! ## Identity Resolver: determinism and classification fallback -/

lemma cacheFind_consistent {c : EntityCache} {k v : String}
    (hc : CacheConsistent c) (h : cacheFind c k = some v) : v = uuid5_dns k := by
  induction c with
  | nil => simp [cacheFind] at h
  | cons p rest ih =>
    obtain ⟨k0, v0⟩ := p
    by_cases hk : k0 = k
    · subst hk
      simp [cacheFind] at h
      subst h
      exact hc (k0, v0) (by simp)
    · rw [cacheFind, if_neg hk] at h
      exact ih (fun q hq => hc q (by simp [hq])) h

lemma get_or_create_fst {c : EntityCache} (hc : CacheConsistent c) (n : String) :
    (get_or_create_entity_id c n).1 = entityIdOf n := by
  unfold get_or_create_entity_id entityIdOf
  by_cases hk : normKey n = ""
  · simp [hk]
  · simp only [hk, if_neg, if_false]
    rcases h : cacheFind c (normKey n) with _ | v
    · simp [h]
    · simp [h, cacheFind_consistent hc h]

lemma get_or_create_consistent {c : EntityCache} (hc : CacheConsistent c)
    (n : String) : CacheConsistent (get_or_create_entity_id c n).2 := by
  unfold get_or_create_entity_id
  by_cases hk : normKey n = ""
  · simpa [hk] using hc
  · simp only [hk, if_neg, if_false]
    rcases h : cacheFind c (normKey n) with _ | v
    · simp only [h]
      intro p hp
      rcases List.mem_append.1 hp with hp | hp
      · exact hc p hp
      · simp at hp
        subst hp
        rfl
    · simpa [h] using hc

/-- C2: `get_or_create_entity_id` is deterministic.  On any consistent cache
(the empty cache of a fresh service is consistent, and consistency is preserved
by every call — second conjunct), the returned id is the pure function
`entityIdOf` of the name, so repeated calls, calls on fresh instances, and
calls across process restarts agree; and any two names with the same
stripped, lower-cased form receive the same id (third conjunct). -/
theorem get_or_create_entity_id_deterministic (c₁ c₂ : EntityCache)
    (n₁ n₂ : String) (h₁ : CacheConsistent c₁) (h₂ : CacheConsistent c₂) :
    (get_or_create_entity_id c₁ n₁).1 = entityIdOf n₁ ∧
    CacheConsistent (get_or_create_entity_id c₁ n₁).2 ∧
    (normKey n₁ = normKey n₂ →
      (get_or_create_entity_id c₁ n₁).1 = (get_or_create_entity_id c₂ n₂).1) := by
  refine ⟨get_or_create_fst h₁ n₁, get_or_create_consistent h₁ n₁, fun hnk => ?_⟩
  rw [get_or_create_fst h₁ n₁, get_or_create_fst h₂ n₂]
  unfold entityIdOf
  rw [hnk]

/-- Witness for C2 at the example given in the spec: a fresh, empty cache is
consistent and `resolve(" Apple ")` equals `resolve("apple")`. -/
theorem get_or_create_entity_id_deterministic_witness :
    CacheConsistent ([] : EntityCache) ∧
    (get_or_create_entity_id [] " Apple ").1 = (get_or_create_entity_id [] "apple").1 := by
  have h0 : CacheConsistent ([] : EntityCache) := by
    intro p hp
    simp at hp
  exact ⟨h0, (get_or_create_entity_id_deterministic [] [] " Apple " "apple" h0 h0).2.2
    (by decide)⟩

/-- C5 counterexample: the claim says a label outside the allowed set falls
back to `_heuristic_type`; in the code the invalid-label branch returns the
literal `"Entity"` instead.  For the name `"Acme Inc"` with the collaborator
returning the out-of-set label `"Organization"`, classification yields
`"Entity"` while the heuristic yields `"Company"`. -/
theorem infer_type_llm_invalid_label_not_heuristic :
    infer_type_llm (some "Organization") "Acme Inc" ≠ heuristic_type "Acme Inc" := by
  decide

/-- C5 amended: on collaborator failure classification falls back to
`_heuristic_type`; on a returned label outside the five allowed labels it
returns the fixed default `"Entity"` (not the heuristic); and in every case
it returns one of the five allowed labels — it is a total function, so a
classification failure never aborts the surrounding batch. -/
theorem infer_type_llm_fallback (reply : Option String) (name content : String) :
    (infer_type_llm none name = heuristic_type name) ∧
    (pyStrip content ∉ VALID_LABELS → infer_type_llm (some content) name = "Entity") ∧
    infer_type_llm reply name ∈ VALID_LABELS := by
  refine ⟨rfl, fun h => by simp [infer_type_llm, h], ?_⟩
  rcases reply with _ | c
  · show heuristic_type name ∈ VALID_LABELS
    unfold heuristic_type
    split
    · decide
    · dsimp only
      split
      · decide
      · split <;> decide
  · show (if pyStrip c ∈ VALID_LABELS then pyStrip c else "Entity") ∈ VALID_LABELS
    split
    · assumption
    · decide

/-- Witness for C5 amended, at concrete inputs: an out-of-set reply yields
the literal `"Entity"`, a failed call yields the heuristic answer, and a
valid reply stays in the allowed label set. -/
theorem infer_type_llm_fallback_witness :
    infer_type_llm (some " Organization ") "First Bank" = "Entity" ∧
    infer_type_llm none "First Bank" = heuristic_type "First Bank" ∧
    infer_type_llm (some "Person") "First Bank" ∈ VALID_LABELS :=
  ⟨(infer_type_llm_fallback (some " Organization ") "First Bank" " Organization ").2.1
      (by decide),
   (infer_type_llm_fallback none "First Bank" "x").1,
   (infer_type_llm_fallback (some "Person") "First Bank" "x").2.2⟩

/-! ## Relation Normalizer: one triple at a time -/

lemma cleanEntities_consistent (classify : String → String) (row : ExtractionRow)
    {c : EntityCache} (hc : CacheConsistent c) (es : List String) :
    CacheConsistent (cleanEntities classify row c es).2 := by
  induction es generalizing c with
  | nil => exact hc
  | cons e tl ih =>
    by_cases he : pyStrip e = ""
    · simpa [cleanEntities, he] using ih hc
    · simpa [cleanEntities, he] using ih (get_or_create_consistent hc (pyStrip e))

lemma cleanRelations_consistent (row : ExtractionRow) {c : EntityCache}
    (hc : CacheConsistent c) (ts : List RelTriple) :
    CacheConsistent (cleanRelations row c ts).2 := by
  induction ts generalizing c with
  | nil => exact hc
  | cons t tl ih =>
    by_cases ht : t.subject = "" ∨ t.object = "" ∨ t.relation = ""
    · simpa [cleanRelations, ht] using ih hc
    · simpa [cleanRelations, ht] using
        ih (get_or_create_consistent (get_or_create_consistent hc t.subject) t.object)

lemma cleanRelations_eq_filterMap (row : ExtractionRow) {c : EntityCache}
    (hc : CacheConsistent c) (ts : List RelTriple) :
    (cleanRelations row c ts).1 = ts.filterMap (normalizeTriple row) := by
  induction ts generalizing c with
  | nil => rfl
  | cons t tl ih =>
    by_cases ht : t.subject = "" ∨ t.object = "" ∨ t.relation = ""
    · simp [cleanRelations, ht, normalizeTriple, ih hc]
    · have hc1 := get_or_create_consistent hc t.subject
      simp only [cleanRelations, ht, if_neg, if_false, normalizeTriple,
        List.filterMap_cons]
      simp only [get_or_create_fst hc t.subject, get_or_create_fst hc1 t.object]
      simp [ht, ih (get_or_create_consistent hc1 t.object)]

/-- C4: on a consistent cache the relation half of `clean_extraction_row` is
exactly the per-triple normalizer `normalizeTriple`: a triple with an empty
subject, relation, or object is skipped and emits nothing, and every other
triple emits one record whose `type` is the relation phrase upper-cased with
spaces replaced by underscores, whose `confidence` is exactly `0.9`, and
whose `start_id` / `end_id` are the ids the Identity Resolver assigns to the subject
and the object. -/
theorem clean_extraction_row_relations (classify : String → String)
    (c : EntityCache) (row : ExtractionRow) (hc : CacheConsistent c) :
    ((clean_extraction_row classify c row).1).2 =
      row.relations.filterMap (normalizeTriple row) :=
  cleanRelations_eq_filterMap row
    (cleanEntities_consistent classify row hc row.entities) row.relations

/-- Witness for C4: a concrete row with one skipped triple (empty relation)
and one emitted triple, evaluated in full.  The emitted record resolves both
endpoints, canonicalizes `"HAS CEO"` to `"HAS_CEO"`, and carries confidence
`0.9`. -/
theorem clean_extraction_row_relations_witness :
    ((clean_extraction_row (fun _ => "Entity") []
        { entities := [], relations := [⟨"Apple", "", "iPhone"⟩, ⟨"Apple", "HAS CEO", "Tim Cook"⟩],
          source := "newsapi", article_id := "a1", published_at := "t1" }).1).2 =
      [{ start_id := entityIdOf "Apple", end_id := entityIdOf "Tim Cook",
         type := "HAS_CEO", confidence := 0.9, article_id := "a1",
         source := "newsapi", published_at := "t1" }] :=
  (clean_extraction_row_relations (fun _ => "Entity") []
      { entities := [], relations := [⟨"Apple", "", "iPhone"⟩, ⟨"Apple", "HAS CEO", "Tim Cook"⟩],
        source := "newsapi", article_id := "a1", published_at := "t1" }
      (fun p hp => by simp at hp)).trans (by rfl)

/-- C10: a triple none of whose components is the empty string is not
skipped — the truthiness test sees non-empty strings — and emits exactly one
record with the resolver ids as endpoints, the canonical type, and confidence
`0.9`; moreover, when the subject is whitespace-only, `get_or_create_entity_id`
returns `None` for it and the emitted record has `start_id = None`, and,
respectively, when the object is whitespace-only the resolver returns `None`
for it and the emitted record has `end_id = None`. -/
theorem whitespace_only_component_emits_none (classify : String → String)
    (c : EntityCache) (row : ExtractionRow) (t : RelTriple)
    (hc : CacheConsistent c) (ht : t ∈ row.relations)
    (hs : t.subject ≠ "") (ho : t.object ≠ "") (hr : t.relation ≠ "") :
    ∃ ro ∈ ((clean_extraction_row classify c row).1).2,
      ro.start_id = entityIdOf t.subject ∧ ro.end_id = entityIdOf t.object ∧
      ro.type = canonRelType t.relation ∧ ro.confidence = 0.9 ∧
      (pyStrip t.subject = "" →
        (get_or_create_entity_id c t.subject).1 = none ∧ ro.start_id = none) ∧
      (pyStrip t.object = "" →
        (get_or_create_entity_id c t.object).1 = none ∧ ro.end_id = none) := by
  have hnone : ∀ name : String, pyStrip name = "" →
      entityIdOf name = none ∧ (get_or_create_entity_id c name).1 = none := by
    intro name hw
    have hkey : normKey name = "" := by
      unfold normKey
      rw [hw]
      rfl
    have hid : entityIdOf name = none := by simp [entityIdOf, hkey]
    exact ⟨hid, by rw [get_or_create_fst hc name, hid]⟩
  have hrel : ((clean_extraction_row classify c row).1).2 =
      row.relations.filterMap (normalizeTriple row) :=
    cleanRelations_eq_filterMap row
      (cleanEntities_consistent classify row hc row.entities) row.relations
  rw [hrel]
  have hn : normalizeTriple row t =
      some { start_id := entityIdOf t.subject, end_id := entityIdOf t.object,
             type := canonRelType t.relation, confidence := 0.9,
             article_id := row.article_id, source := row.source,
             published_at := row.published_at } := by
    simp [normalizeTriple, hs, ho, hr]
  refine ⟨_, List.mem_filterMap.2 ⟨t, ht, hn⟩, rfl, rfl, rfl, rfl, ?_, ?_⟩
  · intro hw
    exact ⟨(hnone t.subject hw).2, (hnone t.subject hw).1⟩
  · intro hw
    exact ⟨(hnone t.object hw).2, (hnone t.object hw).1⟩

/-- Witness for C10: a concrete row whose only triple has the whitespace-only
subject `" "` and the whitespace-only object `"\t"`; resolution returns
`None` for both names and the emitted record has `start_id = None` and
`end_id = None`. -/
theorem whitespace_only_component_emits_none_witness :
    (get_or_create_entity_id [] " ").1 = none ∧
    (get_or_create_entity_id [] "\t").1 = none ∧
    ∃ ro ∈ ((clean_extraction_row (fun _ => "Entity") []
        { entities := [], relations := [⟨" ", "ACQUIRES", "\t"⟩],
          source := "s", article_id := "a", published_at := "t" }).1).2,
      ro.start_id = none ∧ ro.end_id = none ∧
      ro.type = canonRelType "ACQUIRES" ∧ ro.confidence = 0.9 := by
  obtain ⟨ro, hmem, hst, hen, hty, hcf, hsub, hobj⟩ :=
    whitespace_only_component_emits_none (fun _ => "Entity") []
      { entities := [], relations := [⟨" ", "ACQUIRES", "\t"⟩],
        source := "s", article_id := "a", published_at := "t" }
      ⟨" ", "ACQUIRES", "\t"⟩
      (fun p hp => by simp at hp) (by decide) (by decide) (by decide) (by decide)
  exact ⟨(hsub (by decide)).1, (hobj (by decide)).1, ro, hmem,
    (hsub (by decide)).2, (hobj (by decide)).2, hty, hcf⟩

/-! ## The worked example -/

/-- C6 counterexample: the claim (and §8 of the spec) says the heuristic
classifies `"Apple"` as Company and `"Tim Cook"` as Person.  Neither name
contains any of the lexical cues of `_heuristic_type` (`"inc"`, `"corp"`,
`"company"`, `"bank"`, `"fund"`, `"mr"`, `"dr"`, `"ceo"`, `"president"` as
substrings of the lower-cased name), so both fall through to `"Entity"`, and
the resolved entities of the example row both carry label `"Entity"`, not
`"Company"` / `"Person"`. -/
theorem example_types_not_company_person :
    heuristic_type "Apple" = "Entity" ∧ heuristic_type "Tim Cook" = "Entity" ∧
    (run_resolution heuristicClassify [] [appleRow]).1.map EntityObj.label =
      ["Entity", "Entity"] ∧
    ("Entity" : String) ≠ "Company" := by
  decide

/-- C6 amended: for the example row carrying the triple
`("Apple", "HAS CEO", "Tim Cook")` and its two entity mentions, resolution on
a fresh service with the classifier on its heuristic path produces exactly
one edge with type `"HAS_CEO"` and confidence `0.9`, and two entities with
stable deterministic ids (`entityIdOf` of their names, both present), typed
`"Entity"` for both `"Apple"` and `"Tim Cook"` by the heuristic. -/
theorem example_apple_resolution :
    run_resolution heuristicClassify [] [appleRow] =
      ([{ id := entityIdOf "Apple", name := "Apple", label := "Entity",
          source := "newsapi", article_id := "a1", published_at := "2024-01-01" },
        { id := entityIdOf "Tim Cook", name := "Tim Cook", label := "Entity",
          source := "newsapi", article_id := "a1", published_at := "2024-01-01" }],
       [{ start_id := entityIdOf "Apple", end_id := entityIdOf "Tim Cook",
          type := "HAS_CEO", confidence := 0.9, article_id := "a1",
          source := "newsapi", published_at := "2024-01-01" }]) ∧
    (entityIdOf "Apple").isSome = true ∧ (entityIdOf "Tim Cook").isSome = true := by
  refine ⟨by rfl, by decide, by decide⟩

/-! ## `drop_duplicates(keep="first")` semantics -/

lemma dedupFirstAux_mem {α κ : Type} [DecidableEq κ] {key : α → κ}
    {seen : List κ} {l : List α} {x : α}
    (hx : x ∈ dedupFirstAux key seen l) : x ∈ l ∧ key x ∉ seen := by
  induction l generalizing seen with
  | nil => simp [dedupFirstAux] at hx
  | cons a as ih =>
    by_cases h : key a ∈ seen
    · have := ih (by simpa [dedupFirstAux, h] using hx)
      exact ⟨List.mem_cons_of_mem a this.1, this.2⟩
    · simp only [dedupFirstAux, h, if_neg, if_false, List.mem_cons] at hx
      rcases hx with rfl | hx
      · exact ⟨List.mem_cons_self x as, h⟩
      · have := ih hx
        refine ⟨List.mem_cons_of_mem a this.1, fun hmem => this.2 ?_⟩
        exact List.mem_cons_of_mem _ hmem

lemma dedupFirstAux_pairwise {α κ : Type} [DecidableEq κ] (key : α → κ)
    (seen : List κ) (l : List α) :
    (dedupFirstAux key seen l).Pairwise (fun a b => key a ≠ key b) := by
  induction l generalizing seen with
  | nil => simp [dedupFirstAux]
  | cons a as ih =>
    by_cases h : key a ∈ seen
    · simpa [dedupFirstAux, h] using ih seen
    · simp only [dedupFirstAux, h, if_neg, if_false]
      refine List.pairwise_cons.2 ⟨fun b hb heq => ?_, ih (key a :: seen)⟩
      exact (dedupFirstAux_mem hb).2 (by simp [heq])

lemma dedupFirstAux_find {α κ : Type} [DecidableEq κ] (key : α → κ)
    (seen : List κ) (l : List α) (k : κ) (hk : k ∉ seen) :
    (dedupFirstAux key seen l).find? (fun a => decide (key a = k)) =
      l.find? (fun a => decide (key a = k)) := by
  induction l generalizing seen with
  | nil => simp [dedupFirstAux]
  | cons a as ih =>
    by_cases h : key a ∈ seen
    · have hne : ¬ (key a = k) := fun he => hk (he ▸ h)
      rw [List.find?_cons_of_neg _ (by simpa using hne)]
      simpa [dedupFirstAux, h] using ih seen hk
    · by_cases hak : key a = k
      · simp only [dedupFirstAux, h, if_neg, if_false]
        rw [List.find?_cons_of_pos _ (by simpa using hak),
          List.find?_cons_of_pos _ (by simpa using hak)]
      · simp only [dedupFirstAux, h, if_neg, if_false]
        rw [List.find?_cons_of_neg _ (by simpa using hak),
          List.find?_cons_of_neg _ (by simpa using hak)]
        refine ih (key a :: seen) fun hm => ?_
        rcases List.mem_cons.1 hm with he | hm2
        · exact hak he.symm
        · exact hk hm2

lemma dedupFirstAux_length {α κ : Type} [DecidableEq κ] (key : α → κ)
    (seen : List κ) (l : List α) :
    (dedupFirstAux key seen l).length =
      ((l.map key).toFinset \ seen.toFinset).card := by
  induction l generalizing seen with
  | nil => simp [dedupFirstAux]
  | cons a as ih =>
    by_cases h : key a ∈ seen
    · have hset : insert (key a) (as.map key).toFinset \ seen.toFinset =
          (as.map key).toFinset \ seen.toFinset := by
        ext y
        simp only [Finset.mem_sdiff, Finset.mem_insert, List.mem_toFinset]
        constructor
        · rintro ⟨rfl | hy, hns⟩
          · exact absurd h hns
          · exact ⟨hy, hns⟩
        · rintro ⟨hy, hns⟩
          exact ⟨Or.inr hy, hns⟩
      simpa [dedupFirstAux, h, hset] using ih seen
    · have hka : key a ∉ seen.toFinset := fun hm => h (List.mem_toFinset.1 hm)
      have hstep : insert (key a) (as.map key).toFinset \ seen.toFinset =
          insert (key a) ((as.map key).toFinset \ seen.toFinset) := by
        ext y
        simp only [Finset.mem_sdiff, Finset.mem_insert]
        constructor
        · rintro ⟨rfl | hy, hns⟩
          · exact Or.inl rfl
          · exact Or.inr ⟨hy, hns⟩
        · rintro (rfl | ⟨hy, hns⟩)
          · exact ⟨Or.inl rfl, hka⟩
          · exact ⟨Or.inr hy, hns⟩
      have herase : ((as.map key).toFinset \ seen.toFinset).erase (key a) =
          (as.map key).toFinset \ (insert (key a) seen.toFinset) := by
        ext y
        simp only [Finset.mem_erase, Finset.mem_sdiff, Finset.mem_insert]
        constructor
        · rintro ⟨hne, hy, hns⟩
          exact ⟨hy, by simp [hne, hns]⟩
        · rintro ⟨hy, hns⟩
          refine ⟨fun he => hns (Or.inl he), hy, fun hm => hns (Or.inr hm)⟩
      have hcard : (insert (key a) ((as.map key).toFinset \ seen.toFinset)).card =
          (((as.map key).toFinset \ seen.toFinset).erase (key a)).card + 1 := by
        by_cases hin : key a ∈ (as.map key).toFinset \ seen.toFinset
        · rw [Finset.insert_eq_self.2 hin, Finset.card_erase_add_one hin]
        · rw [Finset.card_insert_of_not_mem hin, Finset.erase_eq_of_not_mem hin]
      simp only [dedupFirstAux, h, if_neg, if_false, List.length_cons, List.map_cons,
        List.toFinset_cons, hstep, hcard, herase]
      rw [ih (key a :: seen)]
      simp [Nat.add_comm]

/-- C3: `run_resolution` deduplicates with first-write-wins.  The returned
node list is pairwise distinct on `id`; for every id, the surviving record is
exactly the first record with that id in the accumulated raw list (so the
first-seen attributes are retained); and its length is the number of distinct
ids.  Likewise the returned relation list is pairwise distinct on
`(start_id, end_id, type)`, each key keeps its first occurrence, and N raw
relation records collapsing to K distinct keys yield exactly K edges
(`length = card` of the key set). -/
theorem run_resolution_dedup (classify : String → String) (cache : EntityCache)
    (rows : List ExtractionRow) :
    ((run_resolution classify cache rows).1.Pairwise fun a b => nodeKey a ≠ nodeKey b) ∧
    (∀ k, (run_resolution classify cache rows).1.find? (fun a => decide (nodeKey a = k)) =
      (resolveRows classify cache rows).1.1.find? (fun a => decide (nodeKey a = k))) ∧
    (run_resolution classify cache rows).1.length =
      ((resolveRows classify cache rows).1.1.map nodeKey).toFinset.card ∧
    ((run_resolution classify cache rows).2.Pairwise fun a b => relKey a ≠ relKey b) ∧
    (∀ k, (run_resolution classify cache rows).2.find? (fun a => decide (relKey a = k)) =
      (resolveRows classify cache rows).1.2.find? (fun a => decide (relKey a = k))) ∧
    (run_resolution classify cache rows).2.length =
      ((resolveRows classify cache rows).1.2.map relKey).toFinset.card := by
  simp only [run_resolution, dedupFirst]
  refine ⟨dedupFirstAux_pairwise _ _ _,
    fun k => dedupFirstAux_find _ _ _ k (by simp),
    ?_,
    dedupFirstAux_pairwise _ _ _,
    fun k => dedupFirstAux_find _ _ _ k (by simp),
    ?_⟩
  · rw [dedupFirstAux_length]
    simp
  · rw [dedupFirstAux_length]
    simp

/-! ## Graph Loader: merge semantics -/

lemma mem_addLabel {x l : String} {ls : List String} (h : x ∈ ls) :
    x ∈ addLabel ls l := by
  unfold addLabel
  split
  · exact h
  · exact List.mem_append.2 (Or.inl h)

lemma nodeMatch_setNodeProps {i : String} {n : StoreNode} (r : NodeRow)
    (h : nodeMatch i n) : nodeMatch i (setNodeProps n r) :=
  ⟨mem_addLabel h.1, h.2⟩

lemma exists_nodeMatch_mergeNodeRow {ns : List StoreNode} (r : NodeRow)
    {i : String} (h : ∃ n ∈ ns, nodeMatch i n) :
    ∃ n ∈ mergeNodeRow ns r, nodeMatch i n := by
  obtain ⟨n, hn, hm⟩ := h
  unfold mergeNodeRow
  split
  · refine ⟨if nodeMatch r.id n then setNodeProps n r else n,
      List.mem_map_of_mem _ hn, ?_⟩
    split
    · exact nodeMatch_setNodeProps r hm
    · exact hm
  · exact ⟨n, List.mem_append.2 (Or.inl hn), hm⟩

lemma exists_nodeMatch_self (ns : List StoreNode) (r : NodeRow) :
    ∃ n ∈ mergeNodeRow ns r, nodeMatch r.id n := by
  unfold mergeNodeRow
  split
  · next h =>
    obtain ⟨n, hn, hm⟩ := h
    refine ⟨setNodeProps n r, ?_, nodeMatch_setNodeProps r hm⟩
    have := List.mem_map_of_mem
      (fun n => if nodeMatch r.id n then setNodeProps n r else n) hn
    simpa [if_pos hm] using this
  · refine ⟨newStoreNode r, List.mem_append.2 (Or.inr (by simp)), ?_, rfl⟩
    exact mem_addLabel (by simp)

lemma mergeNodeRow_ids {ns : List StoreNode} {r : NodeRow}
    (h : ∃ n ∈ ns, nodeMatch r.id n) :
    (mergeNodeRow ns r).map StoreNode.id = ns.map StoreNode.id := by
  unfold mergeNodeRow
  rw [if_pos h, List.map_map]
  refine List.map_congr_left fun n _ => ?_
  by_cases hm : nodeMatch r.id n
  · simp [hm, setNodeProps]
  · simp [hm]

lemma foldl_mergeNodeRow_match {rows : List NodeRow} {ns : List StoreNode}
    {i : String} (h : ∃ n ∈ ns, nodeMatch i n) :
    ∃ n ∈ rows.foldl mergeNodeRow ns, nodeMatch i n := by
  induction rows generalizing ns with
  | nil => exact h
  | cons r rs ih => exact ih (exists_nodeMatch_mergeNodeRow r h)

lemma foldl_mergeNodeRow_all_match (rows : List NodeRow) (ns : List StoreNode) :
    ∀ r ∈ rows, ∃ n ∈ rows.foldl mergeNodeRow ns, nodeMatch r.id n := by
  induction rows generalizing ns with
  | nil => simp
  | cons r0 rs ih =>
    intro r hr
    rcases List.mem_cons.1 hr with rfl | hr
    · rw [List.foldl_cons]
      exact foldl_mergeNodeRow_match (exists_nodeMatch_self ns r)
    · exact ih (mergeNodeRow ns r0) r hr

lemma foldl_mergeNodeRow_ids {rows : List NodeRow} {ns : List StoreNode}
    (h : ∀ r ∈ rows, ∃ n ∈ ns, nodeMatch r.id n) :
    (rows.foldl mergeNodeRow ns).map StoreNode.id = ns.map StoreNode.id := by
  induction rows generalizing ns with
  | nil => rfl
  | cons r rs ih =>
    rw [List.foldl_cons]
    rw [ih fun r' hr' => exists_nodeMatch_mergeNodeRow r (h r' (List.mem_cons_of_mem r hr'))]
    exact mergeNodeRow_ids (h r (List.mem_cons_self r rs))

lemma mergeRelRow_nodes (s : Store) (r : RelRow) :
    (mergeRelRow s r).nodes = s.nodes := by
  unfold mergeRelRow
  split
  · split <;> rfl
  · rfl

lemma foldl_mergeRelRow_nodes (rows : List RelRow) (s : Store) :
    (rows.foldl mergeRelRow s).nodes = s.nodes := by
  induction rows generalizing s with
  | nil => rfl
  | cons r rs ih =>
    rw [List.foldl_cons, ih, mergeRelRow_nodes]

lemma mem_edges_mergeRelRow {e : StoreRel} {s : Store} (r : RelRow)
    (h : e ∈ s.edges) : e ∈ (mergeRelRow s r).edges := by
  unfold mergeRelRow
  split
  · split
    · exact h
    · exact List.mem_append.2 (Or.inl h)
  · exact h

lemma mem_edges_foldl_mergeRelRow {e : StoreRel} {s : Store}
    (rows : List RelRow) (h : e ∈ s.edges) :
    e ∈ (rows.foldl mergeRelRow s).edges := by
  induction rows generalizing s with
  | nil => exact h
  | cons r rs ih =>
    rw [List.foldl_cons]
    exact ih (mem_edges_mergeRelRow r h)

lemma mergeRelRow_mem_of_endpoints {s : Store} {r : RelRow}
    (h : (∃ n ∈ s.nodes, n.id = r.start_id) ∧ (∃ n ∈ s.nodes, n.id = r.end_id)) :
    relOfRow r ∈ (mergeRelRow s r).edges := by
  unfold mergeRelRow
  rw [if_pos h]
  split
  · assumption
  · exact List.mem_append.2 (Or.inr (by simp))

lemma foldl_mergeRelRow_mem (rows : List RelRow) {s : Store} :
    ∀ r ∈ rows,
      ((∃ n ∈ s.nodes, n.id = r.start_id) ∧ (∃ n ∈ s.nodes, n.id = r.end_id)) →
      relOfRow r ∈ (rows.foldl mergeRelRow s).edges := by
  induction rows generalizing s with
  | nil => simp
  | cons r0 rs ih =>
    intro r hr hend
    rcases List.mem_cons.1 hr with rfl | hr
    · rw [List.foldl_cons]
      exact mem_edges_foldl_mergeRelRow rs (mergeRelRow_mem_of_endpoints hend)
    · rw [List.foldl_cons]
      refine ih r hr ?_
      rwa [mergeRelRow_nodes]

lemma foldl_mergeRelRow_noop {rows : List RelRow} {s : Store}
    (h : ∀ r ∈ rows,
      ((∃ n ∈ s.nodes, n.id = r.start_id) ∧ (∃ n ∈ s.nodes, n.id = r.end_id)) →
      relOfRow r ∈ s.edges) :
    rows.foldl mergeRelRow s = s := by
  induction rows with
  | nil => rfl
  | cons r0 rs ih =>
    have h0 : mergeRelRow s r0 = s := by
      unfold mergeRelRow
      split
      · next hend => rw [if_pos (h r0 (List.mem_cons_self r0 rs) hend)]
      · rfl
    rw [List.foldl_cons, h0]
    exact ih fun r hr => h r (List.mem_cons_of_mem r0 hr)

lemma exists_id_iff_mem_map {ns : List StoreNode} {i : String} :
    (∃ n ∈ ns, n.id = i) ↔ i ∈ ns.map StoreNode.id := by
  simp [List.mem_map]

lemma run_loading_eq_loadBatchStore (s : Store) (b : GraphBatch) :
    run_loading s b true true = (loadBatchStore s b, true) := rfl

lemma loadBatchStore_nodes (s : Store) (b : GraphBatch) :
    (loadBatchStore s b).nodes = List.foldl mergeNodeRow s.nodes b.nodes :=
  foldl_mergeRelRow_nodes b.edges _

lemma loadBatchStore_pass2_ids (s : Store) (b : GraphBatch) :
    (List.foldl mergeNodeRow (loadBatchStore s b).nodes b.nodes).map StoreNode.id =
      (loadBatchStore s b).nodes.map StoreNode.id := by
  apply foldl_mergeNodeRow_ids
  rw [loadBatchStore_nodes]
  exact foldl_mergeNodeRow_all_match b.nodes s.nodes

lemma loadBatchStore_second_noop (s : Store) (b : GraphBatch) :
    loadBatchStore (loadBatchStore s b) b =
      { nodes := List.foldl mergeNodeRow (loadBatchStore s b).nodes b.nodes,
        edges := (loadBatchStore s b).edges } := by
  show List.foldl mergeRelRow _ b.edges = _
  apply foldl_mergeRelRow_noop
  intro r hr hend
  have h1 : ∃ n ∈ (loadBatchStore s b).nodes, n.id = r.start_id := by
    have hm := exists_id_iff_mem_map.1 hend.1
    rw [loadBatchStore_pass2_ids] at hm
    exact exists_id_iff_mem_map.2 hm
  have h2 : ∃ n ∈ (loadBatchStore s b).nodes, n.id = r.end_id := by
    have hm := exists_id_iff_mem_map.1 hend.2
    rw [loadBatchStore_pass2_ids] at hm
    exact exists_id_iff_mem_map.2 hm
  rw [loadBatchStore_nodes] at h1 h2
  show relOfRow r ∈ (loadBatchStore s b).edges
  exact foldl_mergeRelRow_mem b.edges r hr ⟨h1, h2⟩

/-- C1: loading the same `GraphBatch` twice is idempotent.  For every store
and every batch, applying the successful path of `run_loading` a second time
leaves the node count and the edge list (hence the edge count) exactly as
after the first application — the `MERGE`-by-id node statement and the
`apoc.merge.relationship` edge statement match the rows already loaded
instead of creating duplicates — and the second application again returns
`True`: it does not error. -/
theorem run_loading_idempotent (s : Store) (b : GraphBatch) :
    (run_loading (run_loading s b true true).1 b true true).1.nodes.length =
      (run_loading s b true true).1.nodes.length ∧
    (run_loading (run_loading s b true true).1 b true true).1.edges =
      (run_loading s b true true).1.edges ∧
    (run_loading (run_loading s b true true).1 b true true).2 = true := by
  refine ⟨?_, ?_, rfl⟩
  · show (loadBatchStore (loadBatchStore s b) b).nodes.length =
      (loadBatchStore s b).nodes.length
    rw [loadBatchStore_second_noop]
    have hlen := congrArg List.length (loadBatchStore_pass2_ids s b)
    simpa using hlen
  · show (loadBatchStore (loadBatchStore s b) b).edges =
      (loadBatchStore s b).edges
    rw [loadBatchStore_second_noop]

/-- C7 counterexample: the claim says loading an edge with an absent endpoint
is a hard failure for that edge.  Loading a single edge whose endpoints match
no node in an empty store leaves the store unchanged and still returns
`True`: the endpoint `MATCH` clauses filter the row out, no failure of any
kind is signalled, and the edge is silently dropped. -/
theorem dangling_edge_reports_success :
    load_relationships_csv { nodes := [], edges := [] }
      [⟨"start-missing", "end-missing", "HAS_CEO", some 0.9, "newsapi", "a1", "t"⟩] =
      ({ nodes := [], edges := [] }, true) := by
  decide

/-- C7 amended: an edge row one of whose endpoint ids matches no node in the
store is silently dropped, not failed: the load still reports success, and no
relationship for that row is ever created (provided an identical relationship
was not already present), while the remaining rows are processed normally. -/
theorem dangling_edge_silently_dropped (s : Store) (rows : List RelRow)
    (r : RelRow)
    (hend : ¬ ((∃ n ∈ s.nodes, n.id = r.start_id) ∧ (∃ n ∈ s.nodes, n.id = r.end_id)))
    (habs : relOfRow r ∉ s.edges) :
    (load_relationships_csv s rows).2 = true ∧
    relOfRow r ∉ (load_relationships_csv s rows).1.edges := by
  refine ⟨rfl, ?_⟩
  show relOfRow r ∉ (rows.foldl mergeRelRow s).edges
  induction rows generalizing s with
  | nil => exact habs
  | cons r0 rs ih =>
    rw [List.foldl_cons]
    have hend0 : ¬ ((∃ n ∈ (mergeRelRow s r0).nodes, n.id = r.start_id) ∧
        (∃ n ∈ (mergeRelRow s r0).nodes, n.id = r.end_id)) := by
      rw [mergeRelRow_nodes]
      exact hend
    refine ih (mergeRelRow s r0) hend0 ?_
    unfold mergeRelRow
    split
    · next hok =>
      split
      · exact habs
      · intro hmem
        rcases List.mem_append.1 hmem with hmem | hmem
        · exact habs hmem
        · have heq : relOfRow r = relOfRow r0 := by simpa using hmem
          have hs : r.start_id = r0.start_id := congrArg StoreRel.start_id heq
          have he : r.end_id = r0.end_id := congrArg StoreRel.end_id heq
          rw [← hs, ← he] at hok
          exact hend hok
    · exact habs

/-- Witness for C7 amended: a store holding one node `"a"` and a single edge
row from `"a"` to the absent `"b"`; the load reports success and the edge is
not in the store afterwards. -/
theorem dangling_edge_silently_dropped_witness :
    (load_relationships_csv
      { nodes := [⟨"a", "Apple", "Company", "s", "a1", "t", ["Entity"]⟩], edges := [] }
      [⟨"a", "b", "HAS_CEO", some 0.9, "s", "a1", "t"⟩]).2 = true ∧
    relOfRow ⟨"a", "b", "HAS_CEO", some 0.9, "s", "a1", "t"⟩ ∉
      (load_relationships_csv
        { nodes := [⟨"a", "Apple", "Company", "s", "a1", "t", ["Entity"]⟩], edges := [] }
        [⟨"a", "b", "HAS_CEO", some 0.9, "s", "a1", "t"⟩]).1.edges :=
  dangling_edge_silently_dropped
    { nodes := [⟨"a", "Apple", "Company", "s", "a1", "t", ["Entity"]⟩], edges := [] }
    [⟨"a", "b", "HAS_CEO", some 0.9, "s", "a1", "t"⟩]
    ⟨"a", "b", "HAS_CEO", some 0.9, "s", "a1", "t"⟩
    (by decide) (by decide)

/-- C8: in every execution of `run_loading`, the two CSVs are staged and
transferred to the container before any bulk load (the first four trace
events, in order); whenever relationships are loaded, nodes were loaded
earlier in the trace; if the node phase reports failure the relationship
phase never runs; and node loading itself only runs after both copies
succeeded. -/
theorem run_loading_trace_order (cn cr no ro : Bool) :
    (run_loading_trace cn cr no ro).1.take 4 =
      [LoadEvent.saveNodesCsv, LoadEvent.saveRelsCsv,
       LoadEvent.copyNodesToDocker, LoadEvent.copyRelsToDocker] ∧
    (LoadEvent.loadRels ∈ (run_loading_trace cn cr no ro).1 →
      LoadEvent.loadNodes ∈ (run_loading_trace cn cr no ro).1 ∧
      (run_loading_trace cn cr no ro).1.indexOf LoadEvent.loadNodes <
        (run_loading_trace cn cr no ro).1.indexOf LoadEvent.loadRels) ∧
    (no = false → LoadEvent.loadRels ∉ (run_loading_trace cn cr no ro).1) ∧
    (LoadEvent.loadNodes ∈ (run_loading_trace cn cr no ro).1 → (cn && cr) = true) := by
  cases cn <;> cases cr <;> cases no <;> cases ro <;> decide

/-- Witness for C8: on the all-success path nodes are loaded strictly before
relationships, and on the node-failure path no relationship load appears in
the trace. -/
theorem run_loading_trace_order_witness :
    (LoadEvent.loadNodes ∈ (run_loading_trace true true true true).1 ∧
      (run_loading_trace true true true true).1.indexOf LoadEvent.loadNodes <
        (run_loading_trace true true true true).1.indexOf LoadEvent.loadRels) ∧
    LoadEvent.loadRels ∉ (run_loading_trace true true false true).1 :=
  ⟨(run_loading_trace_order true true true true).2.1 (by decide),
   (run_loading_trace_order true true false true).2.2.1 rfl⟩

/-- C9: a start request arriving while the shared status record has
`running = true` is rejected with the explicit 400 "Pipeline is already
running" error, and the handler returns the record unchanged — stage,
progress, message, and stats of the in-flight run are untouched, and no new
run is queued, coalesced, or substituted (the reset record is never
installed and no worker is spawned on this path). -/
theorem start_pipeline_single_flight (st : PipelineStatus) (sample : Nat)
    (ingest : Bool) (h : st.running = true) :
    start_pipeline st sample ingest =
      (st, StartResponse.rejected "Pipeline is already running" 400) := by
  simp [start_pipeline, h]

/-- Witness for C9: starting while the freshly-installed running status is in
flight is rejected and leaves that status unchanged. -/
theorem start_pipeline_single_flight_witness :
    start_pipeline initialRunStatus 50 true =
      (initialRunStatus, StartResponse.rejected "Pipeline is already running" 400) :=
  start_pipeline_single_flight initialRunStatus 50 true rfl
